import Mathlib

/-!
# poster: double-buffered heat map and its one-step spread

A shallow embedding of `poster.go`.  Go's `uint` is a 64-bit machine word: it is
modelled as a natural number and every arithmetic operation of the source that can
wrap is reduced modulo `2^64` explicitly.  A Go slice is a list; a statement that can
panic returns `Except Panic _`.  The two grids of a `HeatmapBufferArray` are distinct
heap objects with distinct backing arrays (that is how `NewHeatmapBufferArray` makes
them, and `Swap` keeps them so), which lets the buffer be a pair of values.
-/

namespace Poster

/-! ## Machine integers and run-time panics -/

/-- Run-time panics the program can raise. -/
inductive Panic where
  | indexOutOfRange
  | divideByZero
  | makesliceLen
  | hugeImage
  deriving DecidableEq

/-- Number of values of Go's `uint` on the 64-bit targets. -/
def uintRange : Nat := 2 ^ 64

/-- Largest Go `int`. -/
def maxInt : Nat := 2 ^ 63 - 1

/-- Wrapping `uint` addition. -/
def uadd (a b : Nat) : Nat := (a + b) % uintRange

/-- Wrapping `uint` subtraction. -/
def usub (a b : Nat) : Nat := (a + (uintRange - b % uintRange)) % uintRange

/-- Wrapping `uint` multiplication. -/
def umul (a b : Nat) : Nat := (a * b) % uintRange

/-- The conversion `int(u)` of a `uint`: the same 64 bits read as two's complement. -/
def toInt (u : Nat) : Int :=
  if u % uintRange ≤ maxInt then ((u % uintRange : Nat) : Int)
  else ((u % uintRange : Nat) : Int) - (uintRange : Int)

/-- Slice read `s[i]`, panicking when `i` is not below `len(s)`. -/
def index (s : List Nat) (i : Nat) : Except Panic Nat :=
  match s[i]? with
  | some v => .ok v
  | none => .error .indexOutOfRange

/-- Slice write `s[i] = v`, panicking (before any store) when `i` is not below `len(s)`. -/
def store (s : List Nat) (i v : Nat) : Except Panic (List Nat) :=
  if i < s.length then .ok (s.set i v) else .error .indexOutOfRange

/-- The allocation `make([]uint, n)`: a zeroed slice, panicking when the length does
not fit a Go `int`. -/
def makeSlice (n : Nat) : Except Panic (List Nat) :=
  if n ≤ maxInt then .ok (List.replicate n 0) else .error .makesliceLen

/-! ## Grid -/

/-- Go `type Size struct { Width, Height uint }`. -/
structure Size where
  Width : Nat
  Height : Nat
  deriving DecidableEq

/-- Go `type HeatmapArray struct { slice []uint; spread uint; size Size }`. -/
structure HeatmapArray where
  slice : List Nat
  spread : Nat
  size : Size
  deriving DecidableEq

/-- Linear index `x + y*h.spread` used by `At` and `Set`, in wrapping `uint` arithmetic. -/
def HeatmapArray.offset (h : HeatmapArray) (x y : Nat) : Nat :=
  uadd x (umul y h.spread)

/-- Go `func (h HeatmapArray) At(x, y uint) uint`. -/
def HeatmapArray.At (h : HeatmapArray) (x y : Nat) : Except Panic Nat :=
  index h.slice (h.offset x y)

/-- Go `func (h HeatmapArray) Set(x, y, val uint)`: the grid after the call, or the panic. -/
def HeatmapArray.Set (h : HeatmapArray) (x y val : Nat) : Except Panic HeatmapArray :=
  match store h.slice (h.offset x y) val with
  | .ok s => .ok { h with slice := s }
  | .error e => .error e

/-- Memory left behind by a call of `Set`: the updated grid, or the untouched one when the
call panicked. -/
def HeatmapArray.afterSet (h : HeatmapArray) (x y val : Nat) : HeatmapArray :=
  match h.Set x y val with
  | .ok g => g
  | .error _ => h

/-- Go `func (h HeatmapArray) Size() Size`. -/
def HeatmapArray.Size (h : HeatmapArray) : Size := h.size

/-- Go `func NewHeatmapArray(width, height uint) *HeatmapArray`. -/
def NewHeatmapArray (width height : Nat) : Except Panic HeatmapArray :=
  match makeSlice (umul width height) with
  | .ok s => .ok { slice := s, spread := height, size := { Width := width, Height := height } }
  | .error e => .error e

/-! ## Update rule -/

/-- The loop `for _, v := range neighbors` of `spreadAction`: the first nonzero entry wins. -/
def spreadScan (value : Nat) : List Nat → Nat
  | [] => value
  | v :: rest => if v ≠ 0 then v else spreadScan value rest

/-- Go `func spreadAction(value uint, neighbors [4]uint) uint` (its `fmt.Print("!")` is
output only and is left out). -/
def spreadAction (value : Nat) (neighbors : List Nat) : Nat :=
  spreadScan value neighbors

/-! ## Double buffer -/

/-- Go `type HeatmapBufferArray struct { h, b *HeatmapArray }`. -/
structure HeatmapBufferArray where
  h : HeatmapArray
  b : HeatmapArray
  deriving DecidableEq

/-- Go `func (h HeatmapBufferArray) Heatmap() Heatmap`. -/
def HeatmapBufferArray.Heatmap (hba : HeatmapBufferArray) : HeatmapArray := hba.h

/-- Go `func (h HeatmapBufferArray) Buffer() Heatmap`. -/
def HeatmapBufferArray.Buffer (hba : HeatmapBufferArray) : HeatmapArray := hba.b

/-- Go `func (h *HeatmapBufferArray) Swap()`. -/
def HeatmapBufferArray.Swap (hba : HeatmapBufferArray) : HeatmapBufferArray :=
  { h := hba.b, b := hba.h }

/-- The remainder `i % spread`, panicking on a zero divisor. -/
def umod (i spread : Nat) : Except Panic Nat :=
  if spread = 0 then .error .divideByZero else .ok (i % spread)

/-- The four neighbour reads of one iteration of the loop of `Apply`, in source order. -/
def neighboursAt (h : HeatmapArray) (boundary i : Nat) : Except Panic (List Nat) := do
  let m ← umod i h.spread
  let n0 ← (if m = 0 then pure boundary else index h.slice (usub i 1))
  let m' ← umod i h.spread
  let n1 ← (if m' = usub h.spread 1 then pure boundary else index h.slice (uadd i 1))
  let n2 ← (if toInt (usub i h.spread) < 0 then pure boundary
    else index h.slice (usub i h.spread))
  let n3 ← (if uadd i h.spread ≥ h.slice.length then pure boundary
    else index h.slice (uadd i h.spread))
  pure [n0, n1, n2, n3]

/-- One iteration of the loop of `Apply` for slice index `i`; `bs` is the backing slice of
the scratch grid. -/
def applyCell (a : Nat → List Nat → Nat) (boundary : Nat) (h : HeatmapArray)
    (bs : List Nat) (i : Nat) : Except Panic (List Nat) := do
  let n ← neighboursAt h boundary i
  let v ← index h.slice i
  store bs i (a v n)

/-- The loop `for j := range h.slice` of `Apply`, with `k` iterations left to run and `i`
the next index. -/
def applyLoop (a : Nat → List Nat → Nat) (boundary : Nat) (h : HeatmapArray) :
    Nat → Nat → List Nat → Except Panic (List Nat)
  | 0, _, bs => .ok bs
  | k + 1, i, bs =>
    match applyCell a boundary h bs i with
    | .ok bs' => applyLoop a boundary h k (i + 1) bs'
    | .error e => .error e

/-- Go `func (hba *HeatmapBufferArray) Apply(a action, boundary uint)`. -/
def HeatmapBufferArray.Apply (hba : HeatmapBufferArray) (a : Nat → List Nat → Nat)
    (boundary : Nat) : Except Panic HeatmapBufferArray :=
  match applyLoop a boundary hba.h hba.h.slice.length 0 hba.b.slice with
  | .ok bs => .ok (HeatmapBufferArray.Swap { hba with b := { hba.b with slice := bs } })
  | .error e => .error e

/-- Go `func NewHeatmapBufferArray(width, height uint) HeatmapBuffer`. -/
def NewHeatmapBufferArray (width height : Nat) : Except Panic HeatmapBufferArray :=
  match NewHeatmapArray width height with
  | .error e => .error e
  | .ok h =>
    match NewHeatmapArray width height with
    | .error e => .error e
    | .ok b => .ok { h := h, b := b }

/-! ## Renderer -/

/-- Go `type Heatmap interface { Size() Size; At(x, y uint) uint; Set(x, y, val uint) }`,
reduced to the two methods `MakeImage` calls. -/
structure Heatmap where
  Size : Size
  At : Nat → Nat → Except Panic Nat

/-- Modelled from the spec: the colour of a raster pixel is the standard library's
`color.RGBA`, four 8-bit channels, which is not part of the repository. -/
structure RGBA where
  R : Nat
  G : Nat
  B : Nat
  A : Nat
  deriving DecidableEq

/-- Modelled from the spec: the bounds of a raster are the standard library's
`image.Rectangle`, which is not part of the repository: the points with
`MinX ≤ x < MaxX` and `MinY ≤ y < MaxY`. -/
structure Rectangle where
  MinX : Int
  MinY : Int
  MaxX : Int
  MaxY : Int
  deriving DecidableEq

/-- Modelled from the spec: the standard library's `image.Rect(x0, y0, x1, y1)`, which puts
the corners in order. -/
def Rect (x0 y0 x1 y1 : Int) : Rectangle :=
  { MinX := if x0 > x1 then x1 else x0, MinY := if y0 > y1 then y1 else y0,
    MaxX := if x0 > x1 then x0 else x1, MaxY := if y0 > y1 then y0 else y1 }

/-- Modelled from the spec: membership of the point `(x, y)` in a rectangle
(`image.Point.In`). -/
def Rectangle.contains (r : Rectangle) (x y : Int) : Bool :=
  decide (r.MinX ≤ x) && decide (x < r.MaxX) && decide (r.MinY ≤ y) && decide (y < r.MaxY)

/-- Modelled from the spec: the raster is the standard library's `image.RGBA`, which is not
part of the repository; it is seen through its methods as the bounds and the colour stored
for each point. -/
structure RGBAImage where
  Rect : Rectangle
  pix : Int → Int → RGBA

/-- Modelled from the spec: `(*image.RGBA).Set(x, y, c)` for a `color.RGBA` value `c`: the
pixel is stored when the point is inside the bounds and the call does nothing otherwise. -/
def RGBAImage.Set (img : RGBAImage) (x y : Int) (c : RGBA) : RGBAImage :=
  if img.Rect.contains x y
  then { img with pix := fun p q => if p = x ∧ q = y then c else img.pix p q }
  else img

/-- Modelled from the spec: `(*image.RGBA).At(x, y)`: the stored pixel, or the zero colour
outside the bounds. -/
def RGBAImage.At (img : RGBAImage) (x y : Int) : RGBA :=
  if img.Rect.contains x y then img.pix x y else { R := 0, G := 0, B := 0, A := 0 }

instance instDecidableEqExcept {ε α : Type} [DecidableEq ε] [DecidableEq α] :
    DecidableEq (Except ε α) := fun x y =>
  match x, y with
  | .ok a, .ok b =>
    if h : a = b then isTrue (by rw [h]) else isFalse (by intro h'; cases h'; exact h rfl)
  | .error a, .error b =>
    if h : a = b then isTrue (by rw [h]) else isFalse (by intro h'; cases h'; exact h rfl)
  | .ok _, .error _ => isFalse (by intro h; cases h)
  | .error _, .ok _ => isFalse (by intro h; cases h)

/-- Grid `g` has the stride, size and slice length of grid `g0`; its cells are arbitrary. -/
def SameShape (g g0 : HeatmapArray) : Prop :=
  g.spread = g0.spread ∧ g.size = g0.size ∧ g.slice.length = g0.slice.length

/-- Grid `g` is one that `NewHeatmapArray W H` returned, with arbitrary cells written since. -/
def HeatmapArray.BuiltBy (W H : Nat) (g : HeatmapArray) : Prop :=
  W < uintRange ∧ H < uintRange ∧ ∃ g0, NewHeatmapArray W H = .ok g0 ∧ SameShape g g0

/-- Buffer `hba` is one that `NewHeatmapBufferArray W H` returned, with arbitrary cells
written into either grid since. -/
def HeatmapBufferArray.BuiltBy (W H : Nat) (hba : HeatmapBufferArray) : Prop :=
  W < uintRange ∧ H < uintRange ∧
    ∃ hba0, NewHeatmapBufferArray W H = .ok hba0 ∧ SameShape hba.h hba0.h ∧ SameShape hba.b hba0.b

/-- The grid of `NewHeatmapArray W H` after the cells `c` have been written into it. -/
def gridOf (W H : Nat) (c : List Nat) : HeatmapArray :=
  { slice := c, spread := H, size := { Width := W, Height := H } }

/-- The buffer of `NewHeatmapBufferArray W H` with cells `c` in the current grid and cells
`s` in the scratch grid. -/
def bufferOf (W H : Nat) (c s : List Nat) : HeatmapBufferArray :=
  { h := gridOf W H c, b := gridOf W H s }

/-- Neighbour values of slice index `i` when the slice `s` is read as consecutive runs of
`spread` cells: previous and next cell inside the run, same position one run back and one
run ahead, `boundary` where there is none. -/
def linearNeighbours (s : List Nat) (spread boundary i : Nat) : List Nat :=
  [ if i % spread = 0 then boundary else s.getD (i - 1) 0,
    if i % spread = spread - 1 then boundary else s.getD (i + 1) 0,
    if i < spread then boundary else s.getD (i - spread) 0,
    if s.length ≤ i + spread then boundary else s.getD (i + spread) 0 ]

/-- Value one sweep computes for slice index `i` from the slice `s` alone. -/
def sweepValue (a : Nat → List Nat → Nat) (s : List Nat) (spread boundary i : Nat) : Nat :=
  a (s.getD i 0) (linearNeighbours s spread boundary i)

/-- Slice one sweep computes from the slice `s` alone. -/
def sweep (a : Nat → List Nat → Nat) (s : List Nat) (spread boundary : Nat) : List Nat :=
  (List.range s.length).map (sweepValue a s spread boundary)

/-- Value one iteration of `Apply` computes for slice index `i` before storing it: every
operand is read from the current grid `h`. -/
def cellValue (a : Nat → List Nat → Nat) (boundary : Nat) (h : HeatmapArray) (i : Nat) :
    Except Panic Nat :=
  match neighboursAt h boundary i with
  | .error e => .error e
  | .ok n =>
    match index h.slice i with
    | .error e => .error e
    | .ok v => .ok (a v n)

/-- The value the coordinate-level contract of `apply` prescribes for the cell `(x, y)` of a
`W` by `H` grid: the rule applied to the cell and to its left, right, upper and lower
neighbours, `B` standing in for a neighbour outside the grid. -/
def contractValue (a : Nat → List Nat → Nat) (old : HeatmapArray) (W H B x y : Nat) :
    Except Panic Nat := do
  let v ← old.At x y
  let l ← (if x = 0 then pure B else old.At (x - 1) y)
  let r ← (if x = W - 1 then pure B else old.At (x + 1) y)
  let u ← (if y = 0 then pure B else old.At x (y - 1))
  let d ← (if y = H - 1 then pure B else old.At x (y + 1))
  pure (a v [l, r, u, d])

/-- The cell `(x, y)` lies on one of the four edges of a `W` by `H` grid. -/
def onEdge (W H x y : Nat) : Bool :=
  decide (x = 0) || decide (x = W - 1) || decide (y = 0) || decide (y = H - 1)

/-- The `up` neighbour of `Apply`: `if int(i-h.spread) < 0 { boundary } else
{ h.slice[i-h.spread] }`, the third of the four reads of `neighboursAt`. -/
def upNeighbour (h : HeatmapArray) (boundary i : Nat) : Except Panic Nat :=
  if toInt (usub i h.spread) < 0 then pure boundary else index h.slice (usub i h.spread)

/-- The two grids of a buffer have the same size, the same stride and backing slices of the
same length. -/
def EqualDims (hba : HeatmapBufferArray) : Prop :=
  hba.h.size = hba.b.size ∧ hba.h.spread = hba.b.spread ∧
    hba.h.slice.length = hba.b.slice.length

/-- Buffer states a program can reach: the state `NewHeatmapBufferArray` returns, and the
states after a `Swap`, after an `Apply` that returned, and after a `Set` that returned on
the grid handed out by `Heatmap()` or by `Buffer()`. -/
inductive Reachable : HeatmapBufferArray → Prop
  | fresh (W H : Nat) (hba : HeatmapBufferArray) :
      NewHeatmapBufferArray W H = .ok hba → Reachable hba
  | swapped (hba : HeatmapBufferArray) : Reachable hba → Reachable hba.Swap
  | applied (hba r : HeatmapBufferArray) (a : Nat → List Nat → Nat) (B : Nat) :
      Reachable hba → hba.Apply a B = .ok r → Reachable r
  | setCurrent (hba : HeatmapBufferArray) (x y v : Nat) (g : HeatmapArray) :
      Reachable hba → hba.Heatmap.Set x y v = .ok g → Reachable { hba with h := g }
  | setScratch (hba : HeatmapBufferArray) (x y v : Nat) (g : HeatmapArray) :
      Reachable hba → hba.Buffer.Set x y v = .ok g → Reachable { hba with b := g }

/-! ## Basic facts -/

theorem index_of_lt {s : List Nat} {i : Nat} (hi : i < s.length) :
    index s i = .ok (s.getD i 0) := by
  unfold index
  rw [List.getElem?_eq_getElem hi, List.getD_eq_getElem s 0 hi]

theorem index_eq_error_iff (s : List Nat) (i : Nat) :
    index s i = .error .indexOutOfRange ↔ s.length ≤ i := by
  unfold index
  constructor
  · intro h
    by_contra hlt
    rw [List.getElem?_eq_getElem (Nat.lt_of_not_le hlt)] at h
    cases h
  · intro h
    rw [List.getElem?_eq_none h]

theorem usub_of_le {a b : Nat} (hb : b ≤ a) (ha : a < uintRange) : usub a b = a - b := by
  unfold usub
  have hb' : b < uintRange := Nat.lt_of_le_of_lt hb ha
  rw [Nat.mod_eq_of_lt hb']
  have h1 : a + (uintRange - b) = (a - b) + uintRange := by omega
  rw [h1, Nat.add_mod_right, Nat.mod_eq_of_lt (by omega)]

theorem usub_of_lt {a b : Nat} (hab : a < b) (hb : b < uintRange) :
    usub a b = a + uintRange - b := by
  unfold usub
  rw [Nat.mod_eq_of_lt hb, Nat.mod_eq_of_lt (by omega)]
  omega

theorem uadd_of_lt {a b : Nat} (h : a + b < uintRange) : uadd a b = a + b := by
  unfold uadd
  exact Nat.mod_eq_of_lt h

theorem umul_of_lt {a b : Nat} (h : a * b < uintRange) : umul a b = a * b := by
  unfold umul
  exact Nat.mod_eq_of_lt h

/-- The top-edge test of `Apply` on indices and strides that fit an `int`. -/
theorem toInt_usub_neg_iff {i spread : Nat} (hi : i ≤ maxInt) (hs : spread ≤ maxInt) :
    toInt (usub i spread) < 0 ↔ i < spread := by
  have hm : maxInt = 2 ^ 63 - 1 := rfl
  have hu : uintRange = 2 ^ 64 := rfl
  by_cases h : i < spread
  · have e : usub i spread = i + uintRange - spread := usub_of_lt h (by omega)
    simp only [h, iff_true]
    unfold toInt
    rw [e, Nat.mod_eq_of_lt (by omega), if_neg (by omega)]
    omega
  · have e : usub i spread = i - spread := usub_of_le (by omega) (by omega)
    simp only [h, iff_false, not_lt]
    unfold toInt
    rw [e, Nat.mod_eq_of_lt (by omega), if_pos (by omega)]
    omega

/-! ## One iteration and the whole loop of `Apply` -/

/-- On a slice made of whole runs of `spread` cells, every read of an iteration stays
inside the slice and the iteration sees exactly the linear neighbours. -/
theorem neighboursAt_eq (h : HeatmapArray) (boundary i : Nat)
    (hdvd : h.spread ∣ h.slice.length) (hlen : h.slice.length ≤ maxInt)
    (hi : i < h.slice.length) :
    neighboursAt h boundary i = .ok (linearNeighbours h.slice h.spread boundary i) := by
  have hm : maxInt = 2 ^ 63 - 1 := rfl
  have hu : uintRange = 2 ^ 64 := rfl
  obtain ⟨q, hq⟩ := hdvd
  have hS : 0 < h.spread := by
    rcases Nat.eq_zero_or_pos h.spread with h0 | h0
    · rw [h0, Nat.zero_mul] at hq; omega
    · exact h0
  have hSle : h.spread ≤ h.slice.length := by
    rcases Nat.eq_zero_or_pos q with h0 | h0
    · rw [h0, Nat.mul_zero] at hq; omega
    · rw [hq]; exact Nat.le_mul_of_pos_right _ h0
  have hmodlt : i % h.spread < h.spread := Nat.mod_lt _ hS
  have e1 : usub h.spread 1 = h.spread - 1 := usub_of_le hS (by omega)
  have e3 : uadd i h.spread = i + h.spread := uadd_of_lt (by omega)
  have e4 : uadd i 1 = i + 1 := uadd_of_lt (by omega)
  have hup : toInt (usub i h.spread) < 0 ↔ i < h.spread :=
    toInt_usub_neg_iff (by omega) (by omega)
  -- the next cell exists unless `i` closes a run
  have hnext : i % h.spread ≠ h.spread - 1 → i + 1 < h.slice.length := by
    intro hne
    by_contra hge
    have hlast : i + 1 = h.spread * q := by omega
    have hq0 : 0 < q := by
      rcases Nat.eq_zero_or_pos q with h0 | h0
      · rw [h0, Nat.mul_zero] at hq; omega
      · exact h0
    have hi' : i = h.spread * (q - 1) + (h.spread - 1) := by
      have : h.spread * q = h.spread * (q - 1) + h.spread := by
        conv_lhs => rw [show q = (q - 1) + 1 by omega, Nat.mul_add, Nat.mul_one]
      omega
    apply hne
    rw [hi', Nat.mul_add_mod, Nat.mod_eq_of_lt (by omega)]
  unfold neighboursAt umod linearNeighbours
  rw [if_neg (by omega)]
  dsimp only [bind, Except.bind, pure, Except.pure, ge_iff_le]
  rw [e1, e3, e4]
  have r0 : (if i % h.spread = 0 then (Except.ok boundary : Except Panic Nat)
      else index h.slice (usub i 1))
      = .ok (if i % h.spread = 0 then boundary else h.slice.getD (i - 1) 0) := by
    by_cases c : i % h.spread = 0
    · simp [c]
    · have hi1 : 1 ≤ i := by
        rcases Nat.eq_zero_or_pos i with h0 | h0
        · rw [h0, Nat.zero_mod] at c; exact absurd rfl c
        · exact h0
      rw [if_neg c, if_neg c, usub_of_le hi1 (by omega), index_of_lt (by omega)]
  have r1 : (if i % h.spread = h.spread - 1 then (Except.ok boundary : Except Panic Nat)
      else index h.slice (i + 1))
      = .ok (if i % h.spread = h.spread - 1 then boundary else h.slice.getD (i + 1) 0) := by
    by_cases c : i % h.spread = h.spread - 1
    · simp [c]
    · rw [if_neg c, if_neg c, index_of_lt (hnext c)]
  have r2 : (if toInt (usub i h.spread) < 0 then (Except.ok boundary : Except Panic Nat)
      else index h.slice (usub i h.spread))
      = .ok (if i < h.spread then boundary else h.slice.getD (i - h.spread) 0) := by
    by_cases c : i < h.spread
    · rw [if_pos (hup.mpr c), if_pos c]
    · rw [if_neg (fun hh => c (hup.mp hh)), if_neg c, usub_of_le (by omega) (by omega),
        index_of_lt (by omega)]
  have r3 : (if h.slice.length ≤ i + h.spread then (Except.ok boundary : Except Panic Nat)
      else index h.slice (i + h.spread))
      = .ok (if h.slice.length ≤ i + h.spread then boundary
          else h.slice.getD (i + h.spread) 0) := by
    by_cases c : h.slice.length ≤ i + h.spread
    · simp [c]
    · rw [if_neg c, if_neg c, index_of_lt (by omega)]
  rw [r0]
  dsimp only
  rw [r1]
  dsimp only
  rw [r2]
  dsimp only
  rw [r3]

/-- One iteration on such a slice stores the sweep value at index `i` of the scratch slice. -/
theorem applyCell_eq (a : Nat → List Nat → Nat) (h : HeatmapArray) (boundary i : Nat)
    (bs : List Nat) (hdvd : h.spread ∣ h.slice.length) (hlen : h.slice.length ≤ maxInt)
    (hi : i < h.slice.length) (hb : i < bs.length) :
    applyCell a boundary h bs i = .ok (bs.set i (sweepValue a h.slice h.spread boundary i)) := by
  unfold applyCell
  rw [neighboursAt_eq h boundary i hdvd hlen hi, index_of_lt hi]
  simp only [bind, Except.bind, store, if_pos hb, sweepValue]

/-- The loop started at index `i` with `k` iterations left overwrites exactly the cells
`i .. i+k-1` of the scratch slice with their sweep values. -/
theorem applyLoop_eq (a : Nat → List Nat → Nat) (h : HeatmapArray) (boundary : Nat)
    (hdvd : h.spread ∣ h.slice.length) (hlen : h.slice.length ≤ maxInt) :
    ∀ (k i : Nat) (bs : List Nat), i + k ≤ h.slice.length → i + k ≤ bs.length →
      ∃ bs', applyLoop a boundary h k i bs = .ok bs' ∧ bs'.length = bs.length ∧
        ∀ j, bs'[j]? = if i ≤ j ∧ j < i + k
          then some (sweepValue a h.slice h.spread boundary j) else bs[j]? := by
  intro k
  induction k with
  | zero =>
    intro i bs _ _
    refine ⟨bs, rfl, rfl, ?_⟩
    intro j
    rw [if_neg (by omega)]
  | succ k ih =>
    intro i bs h1 h2
    obtain ⟨bs', e, hl, hget⟩ :=
      ih (i + 1) (bs.set i (sweepValue a h.slice h.spread boundary i))
        (by omega) (by rw [List.length_set]; omega)
    refine ⟨bs', ?_, ?_, ?_⟩
    · show (match applyCell a boundary h bs i with
        | .ok bs' => applyLoop a boundary h k (i + 1) bs'
        | .error e => .error e) = _
      rw [applyCell_eq a h boundary i bs hdvd hlen (by omega) (by omega)]
      exact e
    · rw [hl, List.length_set]
    · intro j
      rw [hget j]
      by_cases c1 : i + 1 ≤ j ∧ j < i + 1 + k
      · rw [if_pos c1, if_pos (by omega)]
      · rw [if_neg c1]
        by_cases c2 : j = i
        · subst c2
          rw [if_pos (by omega), List.getElem?_set_self (by omega)]
        · rw [if_neg (by omega), List.getElem?_set_ne (fun hh => c2 hh.symm)]

/-- On a buffer whose current slice is made of whole runs of `spread` cells and whose
scratch slice has the same length, `Apply` returns: the scratch grid, holding the sweep of
the old current slice, becomes current, and the old current grid becomes scratch. -/
theorem Apply_eq (hba : HeatmapBufferArray) (a : Nat → List Nat → Nat) (boundary : Nat)
    (hdvd : hba.h.spread ∣ hba.h.slice.length) (hlen : hba.h.slice.length ≤ maxInt)
    (hb : hba.b.slice.length = hba.h.slice.length) :
    hba.Apply a boundary =
      .ok { h := { hba.b with slice := sweep a hba.h.slice hba.h.spread boundary },
            b := hba.h } := by
  obtain ⟨bs', e, hl, hget⟩ :=
    applyLoop_eq a hba.h boundary hdvd hlen hba.h.slice.length 0 hba.b.slice
      (by omega) (by omega)
  have hbs : bs' = sweep a hba.h.slice hba.h.spread boundary := by
    apply List.ext_getElem?
    intro j
    rw [hget j]
    unfold sweep
    by_cases c : j < hba.h.slice.length
    · rw [if_pos (by omega), List.getElem?_map, List.getElem?_range c]
      rfl
    · rw [if_neg (by omega), List.getElem?_eq_none (by omega),
        List.getElem?_eq_none (by rw [List.length_map, List.length_range]; omega)]
  unfold HeatmapBufferArray.Apply
  rw [e, hbs]
  rfl

/-! ## What holds of every run of the loop -/

theorem applyCell_eq_store (a : Nat → List Nat → Nat) (boundary : Nat) (h : HeatmapArray)
    (bs : List Nat) (i : Nat) :
    applyCell a boundary h bs i =
      match cellValue a boundary h i with
      | .error e => .error e
      | .ok x => store bs i x := by
  unfold applyCell cellValue
  cases neighboursAt h boundary i with
  | error e => rfl
  | ok n =>
    cases index h.slice i with
    | error e => rfl
    | ok v => rfl

/-- The scratch contents below the running index are all a run of the loop can depend on,
once the loop covers the rest of the scratch slice. -/
theorem applyLoop_scratch_irrelevant (a : Nat → List Nat → Nat) (boundary : Nat)
    (h : HeatmapArray) :
    ∀ (k i : Nat) (bs1 bs2 : List Nat), bs1.length = bs2.length →
      (∀ j, j < i → bs1[j]? = bs2[j]?) → bs1.length ≤ i + k →
      applyLoop a boundary h k i bs1 = applyLoop a boundary h k i bs2 := by
  intro k
  induction k with
  | zero =>
    intro i bs1 bs2 hl hlow hcov
    have : bs1 = bs2 := by
      apply List.ext_getElem?
      intro j
      by_cases c : j < i
      · exact hlow j c
      · rw [List.getElem?_eq_none (by omega), List.getElem?_eq_none (by omega)]
    rw [this]
  | succ k ih =>
    intro i bs1 bs2 hl hlow hcov
    show (match applyCell a boundary h bs1 i with
        | .ok bs' => applyLoop a boundary h k (i + 1) bs'
        | .error e => .error e)
      = (match applyCell a boundary h bs2 i with
        | .ok bs' => applyLoop a boundary h k (i + 1) bs'
        | .error e => .error e)
    rw [applyCell_eq_store, applyCell_eq_store]
    cases cellValue a boundary h i with
    | error e => rfl
    | ok x =>
      dsimp only
      unfold store
      by_cases c : i < bs1.length
      · rw [if_pos c, if_pos (by omega)]
        dsimp only
        apply ih
        · rw [List.length_set, List.length_set, hl]
        · intro j hj
          by_cases cj : j = i
          · subst cj
            rw [List.getElem?_set_self c, List.getElem?_set_self (by omega)]
          · rw [List.getElem?_set_ne (fun hh => cj hh.symm),
              List.getElem?_set_ne (fun hh => cj hh.symm)]
            exact hlow j (by omega)
        · rw [List.length_set]; omega
      · rw [if_neg c, if_neg (by omega)]

/-- Whenever the loop returns, every index it ran over was computed without a panic, the
scratch slice kept its length, holds the computed value at each of those indices and is
unchanged elsewhere. -/
theorem applyLoop_ok_inv (a : Nat → List Nat → Nat) (boundary : Nat) (h : HeatmapArray) :
    ∀ (k i : Nat) (bs bs' : List Nat), applyLoop a boundary h k i bs = .ok bs' →
      bs'.length = bs.length ∧
      (∀ j, i ≤ j → j < i + k →
        ∃ x, cellValue a boundary h j = .ok x ∧ bs'[j]? = some x) ∧
      (∀ j, ¬ (i ≤ j ∧ j < i + k) → bs'[j]? = bs[j]?) := by
  intro k
  induction k with
  | zero =>
    intro i bs bs' e
    have : bs' = bs := by
      have e' : (Except.ok bs : Except Panic (List Nat)) = .ok bs' := e
      cases e'
      rfl
    subst this
    exact ⟨rfl, fun j h1 h2 => absurd h2 (by omega), fun j _ => rfl⟩
  | succ k ih =>
    intro i bs bs' e
    have e' : (match applyCell a boundary h bs i with
        | .ok bs1 => applyLoop a boundary h k (i + 1) bs1
        | .error err => .error err) = .ok bs' := e
    rw [applyCell_eq_store] at e'
    cases hc : cellValue a boundary h i with
    | error err => rw [hc] at e'; cases e'
    | ok x =>
      rw [hc] at e'
      dsimp only at e'
      unfold store at e'
      by_cases c : i < bs.length
      · rw [if_pos c] at e'
        dsimp only at e'
        obtain ⟨hl, hin, hout⟩ := ih (i + 1) (bs.set i x) bs' e'
        refine ⟨by rw [hl, List.length_set], ?_, ?_⟩
        · intro j h1 h2
          by_cases cj : j = i
          · subst cj
            refine ⟨x, hc, ?_⟩
            rw [hout j (by omega), List.getElem?_set_self c]
          · exact hin j (by omega) (by omega)
        · intro j hj
          rw [hout j (by omega), List.getElem?_set_ne (by omega)]
      · rw [if_neg c] at e'
        cases e'

/-! ## Constructors -/

theorem NewHeatmapArray_eq_ok_iff (W H : Nat) (g0 : HeatmapArray) :
    NewHeatmapArray W H = .ok g0 ↔
      umul W H ≤ maxInt ∧
      g0 = { slice := List.replicate (umul W H) 0, spread := H,
             size := { Width := W, Height := H } } := by
  unfold NewHeatmapArray makeSlice
  by_cases c : umul W H ≤ maxInt
  · rw [if_pos c]
    dsimp only
    constructor
    · intro h; cases h; exact ⟨c, rfl⟩
    · rintro ⟨_, rfl⟩; rfl
  · rw [if_neg c]
    dsimp only
    constructor
    · intro h; cases h
    · rintro ⟨h, _⟩; exact absurd h c

theorem gridBuiltBy_iff (W H : Nat) (g : HeatmapArray) :
    g.BuiltBy W H ↔
      W < uintRange ∧ H < uintRange ∧ umul W H ≤ maxInt ∧
      g.spread = H ∧ g.size = { Width := W, Height := H } ∧ g.slice.length = umul W H := by
  unfold HeatmapArray.BuiltBy SameShape
  constructor
  · rintro ⟨hW, hH, g0, hg0, h1, h2, h3⟩
    obtain ⟨hm, rfl⟩ := (NewHeatmapArray_eq_ok_iff W H g0).mp hg0
    refine ⟨hW, hH, hm, h1, h2, ?_⟩
    rw [h3, List.length_replicate]
  · rintro ⟨hW, hH, hm, h1, h2, h3⟩
    refine ⟨hW, hH, _, (NewHeatmapArray_eq_ok_iff W H _).mpr ⟨hm, rfl⟩, h1, h2, ?_⟩
    rw [h3, List.length_replicate]

theorem bufferBuiltBy_iff (W H : Nat) (hba : HeatmapBufferArray) :
    hba.BuiltBy W H ↔ hba.h.BuiltBy W H ∧ hba.b.BuiltBy W H := by
  unfold HeatmapBufferArray.BuiltBy HeatmapArray.BuiltBy NewHeatmapBufferArray
  constructor
  · rintro ⟨hW, hH, hba0, e, sh, sb⟩
    cases hn : NewHeatmapArray W H with
    | error err => rw [hn] at e; cases e
    | ok g0 =>
      rw [hn] at e
      dsimp only at e
      cases e
      exact ⟨⟨hW, hH, g0, rfl, sh⟩, ⟨hW, hH, g0, rfl, sb⟩⟩
  · rintro ⟨⟨hW, hH, g0, e0, sh⟩, ⟨_, _, g1, e1, sb⟩⟩
    rw [e0] at e1
    cases e1
    refine ⟨hW, hH, { h := g0, b := g0 }, ?_, sh, sb⟩
    rw [e0]

theorem gridOf_builtBy (W H : Nat) (c : List Nat) (hW : W < uintRange) (hH : H < uintRange)
    (hm : umul W H ≤ maxInt) (hc : c.length = umul W H) : (gridOf W H c).BuiltBy W H :=
  (gridBuiltBy_iff W H _).mpr ⟨hW, hH, hm, rfl, rfl, hc⟩

theorem bufferOf_builtBy (W H : Nat) (c s : List Nat) (hW : W < uintRange)
    (hH : H < uintRange) (hm : umul W H ≤ maxInt) (hc : c.length = umul W H)
    (hs : s.length = umul W H) : (bufferOf W H c s).BuiltBy W H :=
  (bufferBuiltBy_iff W H _).mpr
    ⟨gridOf_builtBy W H c hW hH hm hc, gridOf_builtBy W H s hW hH hm hs⟩

/-- Shape facts of a built buffer whose cell count does not wrap. -/
theorem builtBy_facts {W H : Nat} {hba : HeatmapBufferArray}
    (hb : hba.BuiltBy W H) (hno : W * H < uintRange) :
    hba.h.spread = H ∧ hba.b.spread = H ∧ hba.h.slice.length = W * H ∧
      hba.b.slice.length = W * H ∧ W * H ≤ maxInt ∧
      hba.h.size = { Width := W, Height := H } ∧ hba.b.size = { Width := W, Height := H } := by
  obtain ⟨h1, h2⟩ := (bufferBuiltBy_iff W H hba).mp hb
  obtain ⟨_, _, hm, s1, z1, l1⟩ := (gridBuiltBy_iff W H hba.h).mp h1
  obtain ⟨_, _, _, s2, z2, l2⟩ := (gridBuiltBy_iff W H hba.b).mp h2
  rw [umul_of_lt hno] at hm l1 l2
  exact ⟨s1, s2, l1, l2, hm, z1, z2⟩

/-- On a built buffer whose cell count does not wrap, `Apply` returns the sweep. -/
theorem builtBy_apply_eq {W H : Nat} {hba : HeatmapBufferArray}
    (hb : hba.BuiltBy W H) (hno : W * H < uintRange) (a : Nat → List Nat → Nat) (B : Nat) :
    hba.Apply a B =
      .ok { h := { hba.b with slice := sweep a hba.h.slice H B }, b := hba.h } := by
  obtain ⟨s1, _, l1, l2, hm, _, _⟩ := builtBy_facts hb hno
  have e := Apply_eq hba a B (by rw [s1, l1]; exact Dvd.intro_left W rfl)
    (by rw [l1]; exact hm) (by rw [l1, l2])
  rw [e, s1]

theorem index_sweep (a : Nat → List Nat → Nat) (s : List Nat) (spread B x : Nat)
    (hx : x < s.length) :
    index (sweep a s spread B) x = .ok (sweepValue a s spread B x) := by
  unfold index sweep
  rw [List.getElem?_map, List.getElem?_range hx]
  rfl

theorem length_sweep (a : Nat → List Nat → Nat) (s : List Nat) (spread B : Nat) :
    (sweep a s spread B).length = s.length := by
  unfold sweep
  rw [List.length_map, List.length_range]

theorem offset_of_lt (g : HeatmapArray) (x y : Nat) (h : x + y * g.spread < uintRange) :
    g.offset x y = x + y * g.spread := by
  unfold HeatmapArray.offset
  have h1 : y * g.spread < uintRange := by omega
  rw [umul_of_lt h1, uadd_of_lt h]

/-! ## The grid accessors and the update rule -/

/-- C3: for every value `v` and neighbour array `[n0, n1, n2, n3]` (left, right, up, down),
`spreadAction` returns the entry at the smallest index holding a nonzero value when there
is one, and returns `v` when all four entries are zero. -/
theorem spreadAction_first_nonzero (v n0 n1 n2 n3 : Nat) :
    (∀ k : Fin 4, [n0, n1, n2, n3].get k ≠ 0 →
        (∀ j : Fin 4, j < k → [n0, n1, n2, n3].get j = 0) →
        spreadAction v [n0, n1, n2, n3] = [n0, n1, n2, n3].get k) ∧
    ((∀ k : Fin 4, [n0, n1, n2, n3].get k = 0) → spreadAction v [n0, n1, n2, n3] = v) := by
  constructor
  · intro k hk hlow
    fin_cases k
    · have h0 : n0 ≠ 0 := hk
      show spreadAction v [n0, n1, n2, n3] = n0
      simp [spreadAction, spreadScan, h0]
    · have h0 : n0 = 0 := hlow 0 (by decide)
      have h1 : n1 ≠ 0 := hk
      show spreadAction v [n0, n1, n2, n3] = n1
      simp [spreadAction, spreadScan, h0, h1]
    · have h0 : n0 = 0 := hlow 0 (by decide)
      have h1 : n1 = 0 := hlow 1 (by decide)
      have h2 : n2 ≠ 0 := hk
      show spreadAction v [n0, n1, n2, n3] = n2
      simp [spreadAction, spreadScan, h0, h1, h2]
    · have h0 : n0 = 0 := hlow 0 (by decide)
      have h1 : n1 = 0 := hlow 1 (by decide)
      have h2 : n2 = 0 := hlow 2 (by decide)
      have h3 : n3 ≠ 0 := hk
      show spreadAction v [n0, n1, n2, n3] = n3
      simp [spreadAction, spreadScan, h0, h1, h2, h3]
  · intro hall
    have h0 : n0 = 0 := hall 0
    have h1 : n1 = 0 := hall 1
    have h2 : n2 = 0 := hall 2
    have h3 : n3 = 0 := hall 3
    simp [spreadAction, spreadScan, h0, h1, h2, h3]

/-- C3 at `v = 5`, neighbours `[0, 0, 7, 3]`: the upper neighbour is the first nonzero one,
so the rule returns 7. -/
theorem spreadAction_first_nonzero_witness :
    [0, 0, 7, 3].get (2 : Fin 4) ≠ 0 ∧
      (∀ j : Fin 4, j < 2 → [0, 0, 7, 3].get j = 0) ∧
      spreadAction 5 [0, 0, 7, 3] = 7 :=
  ⟨by decide, by decide,
    (spreadAction_first_nonzero 5 0 0 7 3).1 2 (by decide) (by decide)⟩

/-- C4, evaluated on the 3 by 2 grid: `Set(2, 0, 9)` succeeds and changes what
`At(0, 1)` returns from 0 to 9, because both in-bounds coordinates have linear index 2
under the stride `spread = height`. -/
theorem set_overwrites_other_cell_3x2 :
    ∃ g g', NewHeatmapArray 3 2 = .ok g ∧ g.Set 2 0 9 = .ok g' ∧
      g.At 0 1 = .ok 0 ∧ g'.At 2 0 = .ok 9 ∧ g'.At 0 1 = .ok 9 :=
  ⟨_, _, rfl, rfl, rfl, rfl, rfl⟩

/-- C5, evaluated on the 1 by 2 grid: `NewHeatmapArray(1, 2)` succeeds and `At(0, 1)`, an
in-bounds coordinate, panics with an index out of range (linear index 2 in a slice of
length 2). -/
theorem at_fails_in_bounds_1x2 :
    ∃ g, NewHeatmapArray 1 2 = .ok g ∧ g.slice.length = 2 ∧ g.offset 0 1 = 2 ∧
      g.At 0 1 = .error .indexOutOfRange :=
  ⟨_, rfl, rfl, rfl, rfl⟩

/-- C6 fails on the 2 by 2 grid: the coordinate `(2, 0)` has `x ≥ W`, yet `At(2, 0)` returns
a value, and `Set(2, 0, 5)` succeeds and changes the cell `(0, 1)`. -/
theorem at_out_of_bounds_returns_2x2 :
    ∃ g g', NewHeatmapArray 2 2 = .ok g ∧ g.At 2 0 = .ok 0 ∧
      g.Set 2 0 5 = .ok g' ∧ g.At 0 1 = .ok 0 ∧ g'.At 0 1 = .ok 5 :=
  ⟨_, _, rfl, rfl, rfl, rfl, rfl⟩

/-- C6, amended: for every grid (those built by `NewHeatmapArray(W, H)` included) and every
coordinate `(x, y)`, in bounds or not, `At(x, y)` fails with the index-out-of-range panic
exactly when the linear index `x + y*spread` (in wrapping arithmetic) is not below the slice
length, and otherwise returns the cell stored at that index; `Set(x, y, v)` fails in exactly
the same cases and then leaves the grid unchanged, and otherwise writes the cell at that
index. -/
theorem at_set_fail_iff_offset_outside (g : HeatmapArray) (x y v : Nat) :
    (g.At x y = .error .indexOutOfRange ↔ g.slice.length ≤ g.offset x y) ∧
    (g.offset x y < g.slice.length ↔ g.At x y = .ok (g.slice.getD (g.offset x y) 0)) ∧
    (g.Set x y v = .error .indexOutOfRange ↔ g.slice.length ≤ g.offset x y) ∧
    (g.offset x y < g.slice.length ↔
      g.Set x y v = .ok { g with slice := g.slice.set (g.offset x y) v }) ∧
    (g.Set x y v = .error .indexOutOfRange ↔
      g.afterSet x y v = g ∧ g.slice.length ≤ g.offset x y) := by
  have hset : g.slice.length ≤ g.offset x y → g.Set x y v = .error .indexOutOfRange := by
    intro h
    unfold HeatmapArray.Set store
    rw [if_neg (by omega)]
  have hset' : g.offset x y < g.slice.length →
      g.Set x y v = .ok { g with slice := g.slice.set (g.offset x y) v } := by
    intro h
    unfold HeatmapArray.Set store
    rw [if_pos h]
  have hinv : g.Set x y v = .error .indexOutOfRange → g.slice.length ≤ g.offset x y := by
    intro h
    by_contra c
    rw [hset' (by omega)] at h
    cases h
  refine ⟨index_eq_error_iff _ _, ⟨fun h => index_of_lt h, ?_⟩, ⟨hinv, hset⟩,
    ⟨hset', ?_⟩, ⟨?_, fun h => hset h.2⟩⟩
  · intro h
    by_contra c
    have e := (index_eq_error_iff g.slice (g.offset x y)).mpr (by omega)
    unfold HeatmapArray.At at h
    rw [e] at h
    cases h
  · intro h
    by_contra c
    rw [hset (by omega)] at h
    cases h
  · intro h
    refine ⟨?_, hinv h⟩
    unfold HeatmapArray.afterSet
    rw [h]

/-! ## The sweep -/

/-- C1, evaluated on the fresh 4 by 3 buffer with the program's rule and boundary 255: after
`Apply`, `At(2, 1)` is 255, while the coordinate-level contract gives 0 for that cell, whose
four neighbours `(1, 1)`, `(3, 1)`, `(2, 0)`, `(2, 2)` are inside the grid and hold 0. -/
theorem apply_breaks_coordinate_contract_4x3 :
    ∃ hba r, NewHeatmapBufferArray 4 3 = .ok hba ∧ hba.Apply spreadAction 255 = .ok r ∧
      r.Heatmap.At 2 1 = .ok 255 ∧
      contractValue spreadAction hba.Heatmap 4 3 255 2 1 = .ok 0 :=
  ⟨_, _, rfl, rfl, rfl, rfl⟩

/-- C2: for two buffers built with the same dimensions whose current grids hold the same
cells and whose scratch grids hold arbitrary contents, one `Apply` with the same rule and boundary
gives the same outcome and the same new current grid; whenever `Apply` returns, every cell
`i` of the new current slice is the value computed from the old current grid alone; and
`Apply` does return, with the sweep of the old current slice, when `W*H` does not wrap. -/
theorem apply_reads_only_current (W H : Nat) (hba1 hba2 : HeatmapBufferArray)
    (a : Nat → List Nat → Nat) (B : Nat)
    (h1 : hba1.BuiltBy W H) (h2 : hba2.BuiltBy W H)
    (hcur : hba1.Heatmap.slice = hba2.Heatmap.slice) :
    Except.map HeatmapBufferArray.Heatmap (hba1.Apply a B)
        = Except.map HeatmapBufferArray.Heatmap (hba2.Apply a B) ∧
    (∀ r, hba1.Apply a B = .ok r →
      r.Heatmap.slice.length = hba1.Heatmap.slice.length ∧
      ∀ i, i < hba1.Heatmap.slice.length →
        ∃ x, cellValue a B hba1.Heatmap i = .ok x ∧ r.Heatmap.slice[i]? = some x) ∧
    (W * H < uintRange →
      ∃ r, hba1.Apply a B = .ok r ∧ r.Heatmap.slice = sweep a hba1.Heatmap.slice H B) := by
  obtain ⟨g1, b1⟩ := (bufferBuiltBy_iff W H hba1).mp h1
  obtain ⟨g2, b2⟩ := (bufferBuiltBy_iff W H hba2).mp h2
  obtain ⟨_, _, _, sh1, zh1, lh⟩ := (gridBuiltBy_iff W H hba1.h).mp g1
  obtain ⟨_, _, _, sh2, zh2, _⟩ := (gridBuiltBy_iff W H hba2.h).mp g2
  obtain ⟨_, _, _, s1, z1, l1⟩ := (gridBuiltBy_iff W H hba1.b).mp b1
  obtain ⟨_, _, _, s2, z2, l2⟩ := (gridBuiltBy_iff W H hba2.b).mp b2
  have hslice : hba1.h.slice = hba2.h.slice := hcur
  have hcur' : hba1.h = hba2.h := by
    rw [show hba1.h = { slice := hba1.h.slice, spread := hba1.h.spread, size := hba1.h.size }
        from rfl,
      show hba2.h = { slice := hba2.h.slice, spread := hba2.h.spread, size := hba2.h.size }
        from rfl, hslice, sh1, sh2, zh1, zh2]
  refine ⟨?_, ?_, ?_⟩
  · have e := applyLoop_scratch_irrelevant a B hba1.h hba1.h.slice.length 0
      hba1.b.slice hba2.b.slice (by rw [l1, l2]) (fun j hj => absurd hj (by omega))
      (by rw [l1, lh]; omega)
    unfold HeatmapBufferArray.Apply
    rw [← hcur', e]
    cases applyLoop a B hba1.h hba1.h.slice.length 0 hba2.b.slice with
    | error err => rfl
    | ok bs =>
      show Except.ok ({ hba1.b with slice := bs } : HeatmapArray)
        = Except.ok ({ hba2.b with slice := bs } : HeatmapArray)
      rw [show ({ hba1.b with slice := bs } : HeatmapArray)
        = { slice := bs, spread := hba1.b.spread, size := hba1.b.size } from rfl,
        show ({ hba2.b with slice := bs } : HeatmapArray)
        = { slice := bs, spread := hba2.b.spread, size := hba2.b.size } from rfl,
        s1, s2, z1, z2]
  · intro r hr
    unfold HeatmapBufferArray.Apply at hr
    cases hl : applyLoop a B hba1.h hba1.h.slice.length 0 hba1.b.slice with
    | error err => rw [hl] at hr; cases hr
    | ok bs =>
      rw [hl] at hr
      cases hr
      obtain ⟨hlen, hin, _⟩ := applyLoop_ok_inv a B hba1.h _ _ _ _ hl
      refine ⟨?_, ?_⟩
      · show bs.length = hba1.h.slice.length
        rw [hlen, l1, lh]
      · intro i hi
        exact hin i (by omega) (by simpa using hi)
  · intro hno
    refine ⟨_, builtBy_apply_eq h1 hno a B, rfl⟩

/-- C2 on two 2 by 2 buffers with current slice `[1, 0, 0, 0]` and scratch slices
`[9, 9, 9, 9]` and `[5, 6, 7, 8]`: the new current grids agree. -/
theorem apply_reads_only_current_witness :
    Except.map HeatmapBufferArray.Heatmap
        ((bufferOf 2 2 [1, 0, 0, 0] [9, 9, 9, 9]).Apply spreadAction 0)
      = Except.map HeatmapBufferArray.Heatmap
        ((bufferOf 2 2 [1, 0, 0, 0] [5, 6, 7, 8]).Apply spreadAction 0) :=
  (apply_reads_only_current 2 2 (bufferOf 2 2 [1, 0, 0, 0] [9, 9, 9, 9])
    (bufferOf 2 2 [1, 0, 0, 0] [5, 6, 7, 8]) spreadAction 0
    (bufferOf_builtBy 2 2 _ _ (by decide) (by decide) (by decide) rfl rfl)
    (bufferOf_builtBy 2 2 _ _ (by decide) (by decide) (by decide) rfl rfl)
    rfl).1

/-- C7: on a buffer built by `NewHeatmapBufferArray`, whenever `Apply` returns, `Buffer()`
is the grid that was `Heatmap()` before the call, every cell unchanged, and `Heatmap()` is
the grid that was `Buffer()` before the call (same stride, size and slice length) whose
cells now hold the values computed from the old current grid; and `Apply` does return when
`W*H` does not wrap. -/
theorem apply_exchanges_roles (W H : Nat) (hba : HeatmapBufferArray)
    (a : Nat → List Nat → Nat) (B : Nat) (hb : hba.BuiltBy W H) :
    (∀ r, hba.Apply a B = .ok r →
      r.Buffer = hba.Heatmap ∧
      r.Heatmap = { hba.Buffer with slice := r.Heatmap.slice } ∧
      r.Heatmap.slice.length = hba.Buffer.slice.length ∧
      ∀ i, i < hba.Heatmap.slice.length →
        ∃ x, cellValue a B hba.Heatmap i = .ok x ∧ r.Heatmap.slice[i]? = some x) ∧
    (W * H < uintRange →
      ∃ r, hba.Apply a B = .ok r ∧ r.Buffer = hba.Heatmap ∧
        r.Heatmap = { hba.Buffer with slice := sweep a hba.Heatmap.slice H B }) := by
  refine ⟨?_, ?_⟩
  · intro r hr
    unfold HeatmapBufferArray.Apply at hr
    cases hl : applyLoop a B hba.h hba.h.slice.length 0 hba.b.slice with
    | error err => rw [hl] at hr; cases hr
    | ok bs =>
      rw [hl] at hr
      cases hr
      obtain ⟨hlen, hin, _⟩ := applyLoop_ok_inv a B hba.h _ _ _ _ hl
      refine ⟨rfl, rfl, hlen, ?_⟩
      intro i hi
      exact hin i (by omega) (by simpa using hi)
  · intro hno
    exact ⟨_, builtBy_apply_eq hb hno a B, rfl, rfl⟩

/-- C7 on the 3 by 1 buffer with current slice `[0, 0, 7]` and scratch slice `[4, 4, 4]`:
`Apply` returns, the old current grid is the new scratch grid, untouched, and the new
current grid is the old scratch grid holding `[0, 7, 7]`. -/
theorem apply_exchanges_roles_witness :
    ∃ r, (bufferOf 3 1 [0, 0, 7] [4, 4, 4]).Apply spreadAction 0 = .ok r ∧
      r.Buffer = (bufferOf 3 1 [0, 0, 7] [4, 4, 4]).Heatmap ∧
      r.Heatmap = { (bufferOf 3 1 [0, 0, 7] [4, 4, 4]).Buffer with
        slice := sweep spreadAction (bufferOf 3 1 [0, 0, 7] [4, 4, 4]).Heatmap.slice 1 0 } :=
  (apply_exchanges_roles 3 1 (bufferOf 3 1 [0, 0, 7] [4, 4, 4]) spreadAction 0
    (bufferOf_builtBy 3 1 _ _ (by decide) (by decide) (by decide) rfl rfl)).2 (by decide)

/-- C8: on a 1 by 1 buffer whose cell holds `v`, for every rule `a` and boundary `B`, the
iteration of `Apply` gathers the neighbours `[B, B, B, B]`, `Apply` returns, and the new
current cell is `a v [B, B, B, B]`. -/
theorem apply_one_by_one (hba : HeatmapBufferArray) (a : Nat → List Nat → Nat) (B v : Nat)
    (hb : hba.BuiltBy 1 1) (hv : hba.Heatmap.At 0 0 = .ok v) :
    neighboursAt hba.Heatmap B 0 = .ok [B, B, B, B] ∧
    cellValue a B hba.Heatmap 0 = .ok (a v [B, B, B, B]) ∧
    ∃ r, hba.Apply a B = .ok r ∧ r.Heatmap.slice = [a v [B, B, B, B]] ∧
      r.Heatmap.At 0 0 = .ok (a v [B, B, B, B]) := by
  obtain ⟨s1, _, l1, _, hm, _, _⟩ := builtBy_facts hb (by decide)
  have hcur : hba.Heatmap = hba.h := rfl
  rw [hcur] at hv ⊢
  have hoff : hba.h.offset 0 0 = 0 := by
    rw [offset_of_lt _ _ _ (by rw [s1]; decide)]
    simp
  have hv0 : index hba.h.slice 0 = .ok v := by
    have := hv
    unfold HeatmapArray.At at this
    rw [hoff] at this
    exact this
  have hget : hba.h.slice.getD 0 0 = v := by
    rw [index_of_lt (by omega)] at hv0
    cases hv0
    rfl
  obtain ⟨w, hw⟩ : ∃ w, hba.h.slice = [w] := List.length_eq_one.mp (by omega)
  have hwv : w = v := by
    rw [hw] at hget
    exact hget
  subst hwv
  have hn : neighboursAt hba.h B 0 = .ok [B, B, B, B] := by
    rw [neighboursAt_eq hba.h B 0 (by rw [s1]; exact one_dvd _) (by omega) (by omega)]
    rw [s1, hw]
    rfl
  have hsw : sweep a hba.h.slice 1 B = [a w [B, B, B, B]] := by
    rw [hw]
    rfl
  refine ⟨hn, ?_, _, builtBy_apply_eq hb (by decide) a B, hsw, ?_⟩
  · unfold cellValue
    rw [hn, hv0]
  · show HeatmapArray.At { hba.b with slice := sweep a hba.h.slice 1 B } 0 0 = _
    unfold HeatmapArray.At
    rw [offset_of_lt _ _ _ (by simp [uintRange]), hsw]
    simp [index]

/-- C8 on the 1 by 1 buffer holding 5, with boundary 3 and the rule adding the cell to the
sum of its neighbours: the new cell is `5 + (3 + 3 + 3 + 3) = 17`. -/
theorem apply_one_by_one_witness :
    ∃ r, (bufferOf 1 1 [5] [0]).Apply (fun v n => v + n.sum) 3 = .ok r ∧
      r.Heatmap.slice = [17] ∧ r.Heatmap.At 0 0 = .ok 17 :=
  (apply_one_by_one (bufferOf 1 1 [5] [0]) (fun v n => v + n.sum) 3 5
    (bufferOf_builtBy 1 1 _ _ (by decide) (by decide) (by decide) rfl rfl) rfl).2.2

/-- C9: on a `W` by 1 buffer (`W ≥ 1`) with current contents `c`, one
`Apply(spreadAction, 0)` returns, and for each `x < W` the new `At(x, 0)` is `c[x-1]` if
`x > 0` and `c[x-1] ≠ 0`; otherwise `c[x+1]` if `x < W-1` and `c[x+1] ≠ 0`; otherwise
`c[x]`. -/
theorem apply_spread_row (W : Nat) (hba : HeatmapBufferArray) (c : List Nat)
    (hW : 1 ≤ W) (hb : hba.BuiltBy W 1) (hc : hba.Heatmap.slice = c) :
    ∃ r, hba.Apply spreadAction 0 = .ok r ∧
      ∀ x, x < W → r.Heatmap.At x 0 = .ok
        (if 0 < x ∧ c.getD (x - 1) 0 ≠ 0 then c.getD (x - 1) 0
         else if x < W - 1 ∧ c.getD (x + 1) 0 ≠ 0 then c.getD (x + 1) 0
         else c.getD x 0) := by
  have hWu : W < uintRange := hb.1
  have hno : W * 1 < uintRange := by omega
  obtain ⟨s1, s2, l1, _, hm, _, _⟩ := builtBy_facts hb hno
  have hcur : hba.Heatmap = hba.h := rfl
  rw [hcur] at hc
  refine ⟨_, builtBy_apply_eq hb hno spreadAction 0, ?_⟩
  intro x hx
  show HeatmapArray.At { hba.b with slice := sweep spreadAction hba.h.slice 1 0 } x 0 = _
  unfold HeatmapArray.At
  rw [offset_of_lt _ _ _ (by simpa using hWu.trans_le' hx.le)]
  simp only [Nat.zero_mul, Nat.add_zero]
  rw [index_sweep _ _ _ _ _ (by omega)]
  have hlen : c.length = W := by rw [← hc, l1]; omega
  rw [hc]
  unfold sweepValue linearNeighbours spreadAction
  simp only [Nat.mod_one, Nat.sub_self, if_true, spreadScan, ne_eq, not_true_eq_false,
    if_false, hlen]
  congr 1
  generalize c.getD (x - 1) 0 = p
  generalize c.getD (x + 1) 0 = q
  generalize c.getD x 0 = m
  split_ifs <;> first | rfl | omega

/-- C9 on the 3 by 1 grid `[0, 0, 7]` with boundary 0: `Apply` returns and the new current
grid reads `[0, 7, 7]`. -/
theorem apply_spread_row_witness :
    ∃ r, (bufferOf 3 1 [0, 0, 7] [0, 0, 0]).Apply spreadAction 0 = .ok r ∧
      r.Heatmap.At 0 0 = .ok 0 ∧ r.Heatmap.At 1 0 = .ok 7 ∧ r.Heatmap.At 2 0 = .ok 7 :=
  match apply_spread_row 3 (bufferOf 3 1 [0, 0, 7] [0, 0, 0]) [0, 0, 7] (by decide)
    (bufferOf_builtBy 3 1 _ _ (by decide) (by decide) (by decide) rfl rfl) rfl with
  | ⟨r, hr, hx⟩ => ⟨r, hr, hx 0 (by decide), hx 1 (by decide), hx 2 (by decide)⟩

/-! ## Renderer -/

/-- C13: for every buffer state, after `Swap` the grid `Heatmap()` returns is the one
`Buffer()` returned before and the grid `Buffer()` returns is the one `Heatmap()` returned
before, with the cells, size and stride they had, and a second `Swap` restores the
original state. -/
theorem swap_exchanges_roles (hba : HeatmapBufferArray) :
    hba.Swap.Heatmap = hba.Buffer ∧ hba.Swap.Buffer = hba.Heatmap ∧
    hba.Swap.Heatmap.slice = hba.Buffer.slice ∧ hba.Swap.Heatmap.size = hba.Buffer.size ∧
    hba.Swap.Heatmap.spread = hba.Buffer.spread ∧
    hba.Swap.Buffer.slice = hba.Heatmap.slice ∧ hba.Swap.Buffer.size = hba.Heatmap.size ∧
    hba.Swap.Buffer.spread = hba.Heatmap.spread ∧
    hba.Swap.Swap = hba :=
  ⟨rfl, rfl, rfl, rfl, rfl, rfl, rfl, rfl, rfl⟩

theorem set_keeps_shape (g g' : HeatmapArray) (x y v : Nat) (h : g.Set x y v = .ok g') :
    g'.size = g.size ∧ g'.spread = g.spread ∧ g'.slice.length = g.slice.length := by
  unfold HeatmapArray.Set store at h
  by_cases c : g.offset x y < g.slice.length
  · rw [if_pos c] at h
    cases h
    exact ⟨rfl, rfl, List.length_set _ _ _⟩
  · rw [if_neg c] at h
    cases h

theorem newBuffer_eq_ok (W H : Nat) (hba : HeatmapBufferArray)
    (h : NewHeatmapBufferArray W H = .ok hba) :
    umul W H ≤ maxInt ∧
      hba = { h := { slice := List.replicate (umul W H) 0, spread := H,
                     size := { Width := W, Height := H } },
              b := { slice := List.replicate (umul W H) 0, spread := H,
                     size := { Width := W, Height := H } } } := by
  unfold NewHeatmapBufferArray at h
  cases hn : NewHeatmapArray W H with
  | error err => rw [hn] at h; cases h
  | ok g0 =>
    rw [hn] at h
    dsimp only at h
    cases h
    obtain ⟨hm, rfl⟩ := (NewHeatmapArray_eq_ok_iff W H g0).mp hn
    exact ⟨hm, rfl⟩

theorem apply_keeps_equalDims (hba r : HeatmapBufferArray) (a : Nat → List Nat → Nat)
    (B : Nat) (hd : EqualDims hba) (hr : hba.Apply a B = .ok r) : EqualDims r := by
  obtain ⟨d1, d2, d3⟩ := hd
  unfold HeatmapBufferArray.Apply at hr
  cases hl : applyLoop a B hba.h hba.h.slice.length 0 hba.b.slice with
  | error err => rw [hl] at hr; cases hr
  | ok bs =>
    rw [hl] at hr
    cases hr
    obtain ⟨hlen, _, _⟩ := applyLoop_ok_inv a B hba.h _ _ _ _ hl
    refine ⟨d1.symm, d2.symm, ?_⟩
    show bs.length = hba.h.slice.length
    rw [hlen, d3]

/-- C12: in the state `NewHeatmapBufferArray(W, H)` returns the two grids have the same
size `(W, H)`, the same stride and backing slices of the same length `W*H` (in `uint`
arithmetic); having equal dimensions is preserved by `Swap` and by every `Apply` that
returns, for any rule and boundary; so every reachable buffer state has grids of equal
dimensions. -/
theorem equal_dims_invariant :
    (∀ W H hba, NewHeatmapBufferArray W H = .ok hba →
      EqualDims hba ∧ hba.h.size = { Width := W, Height := H } ∧ hba.h.spread = H ∧
        hba.h.slice.length = umul W H ∧ hba.b.slice.length = umul W H ∧
        (W * H < uintRange → hba.h.slice.length = W * H ∧ hba.b.slice.length = W * H)) ∧
    (∀ hba, EqualDims hba → EqualDims hba.Swap) ∧
    (∀ hba r a B, EqualDims hba → hba.Apply a B = .ok r → EqualDims r) ∧
    (∀ hba, Reachable hba → EqualDims hba) := by
  have hnew : ∀ W H hba, NewHeatmapBufferArray W H = .ok hba →
      EqualDims hba ∧ hba.h.size = { Width := W, Height := H } ∧ hba.h.spread = H ∧
        hba.h.slice.length = umul W H ∧ hba.b.slice.length = umul W H ∧
        (W * H < uintRange → hba.h.slice.length = W * H ∧ hba.b.slice.length = W * H) := by
    intro W H hba h
    obtain ⟨_, rfl⟩ := newBuffer_eq_ok W H hba h
    refine ⟨⟨rfl, rfl, rfl⟩, rfl, rfl, List.length_replicate _ _, List.length_replicate _ _, ?_⟩
    intro hno
    dsimp only
    rw [List.length_replicate, umul_of_lt hno]
    exact ⟨rfl, rfl⟩
  have hswap : ∀ hba, EqualDims hba → EqualDims hba.Swap := by
    rintro hba ⟨d1, d2, d3⟩
    exact ⟨d1.symm, d2.symm, d3.symm⟩
  refine ⟨hnew, hswap, fun hba r a B => apply_keeps_equalDims hba r a B, ?_⟩
  intro hba hreach
  induction hreach with
  | fresh W H hba h => exact (hnew W H hba h).1
  | swapped hba _ ih => exact hswap hba ih
  | applied hba r a B _ hr ih => exact apply_keeps_equalDims hba r a B ih hr
  | setCurrent hba x y v g _ hs ih =>
    obtain ⟨d1, d2, d3⟩ := ih
    obtain ⟨s1, s2, s3⟩ := set_keeps_shape _ _ x y v hs
    exact ⟨s1.trans d1, s2.trans d2, s3.trans d3⟩
  | setScratch hba x y v g _ hs ih =>
    obtain ⟨d1, d2, d3⟩ := ih
    obtain ⟨s1, s2, s3⟩ := set_keeps_shape _ _ x y v hs
    exact ⟨d1.trans s1.symm, d2.trans s2.symm, d3.trans s3.symm⟩

/-- C12 on the program's own buffer: the state `NewHeatmapBufferArray(300, 200)` returns,
and the state after one `Swap`, have grids of equal dimensions. -/
theorem equal_dims_invariant_witness :
    ∃ hba, NewHeatmapBufferArray 300 200 = .ok hba ∧ EqualDims hba ∧ EqualDims hba.Swap :=
  ⟨_, rfl, (equal_dims_invariant.1 300 200 _ rfl).1,
    equal_dims_invariant.2.1 _ (equal_dims_invariant.1 300 200 _ rfl).1⟩

/-! ## The reads of one iteration -/

/-- Whenever the neighbour reads of an iteration return, the stride is not zero and each of
the four entries is the result of its own read. -/
theorem neighboursAt_ok_inv (h : HeatmapArray) (B i : Nat) (n : List Nat)
    (hn : neighboursAt h B i = .ok n) :
    h.spread ≠ 0 ∧ ∃ n0 n1 n2 n3, n = [n0, n1, n2, n3] ∧
      (if i % h.spread = 0 then Except.ok B else index h.slice (usub i 1)) = .ok n0 ∧
      (if i % h.spread = usub h.spread 1 then Except.ok B else index h.slice (uadd i 1))
        = .ok n1 ∧
      upNeighbour h B i = .ok n2 ∧
      (if h.slice.length ≤ uadd i h.spread then Except.ok B
        else index h.slice (uadd i h.spread)) = .ok n3 := by
  unfold neighboursAt umod at hn
  by_cases hS : h.spread = 0
  · rw [if_pos hS] at hn
    cases hn
  · rw [if_neg hS] at hn
    dsimp only [bind, Except.bind, pure, Except.pure, ge_iff_le] at hn
    refine ⟨hS, ?_⟩
    split at hn
    · cases hn
    · rename_i n0 h0
      split at hn
      · cases hn
      · rename_i n1 h1
        split at hn
        · cases hn
        · rename_i n2 h2
          split at hn
          · cases hn
          · rename_i n3 h3
            cases hn
            exact ⟨n0, n1, n2, n3, rfl, h0, h1, h2, h3⟩

theorem index_ok_lt {s : List Nat} {k v : Nat} (h : index s k = .ok v) : k < s.length := by
  by_contra c
  rw [(index_eq_error_iff s k).mpr (by omega)] at h
  cases h

theorem index_ok_getD {s : List Nat} {k v : Nat} (h : index s k = .ok v) :
    v = s.getD k 0 := by
  rw [index_of_lt (index_ok_lt h)] at h
  cases h
  rfl

/-- C19: for `i` and `spread` below `2^63`, the top-edge test `int(i - spread) < 0` of
`Apply`, a wrapping 64-bit subtraction read as a signed integer, holds exactly when
`i < spread`; so the `up` neighbour is the boundary exactly for the indices of the first
run of `spread` cells, and otherwise it is the read `h.slice[i-spread]`, made with
`i ≥ spread`. -/
theorem top_edge_test_iff (h : HeatmapArray) (B i : Nat) (hi : i < 2 ^ 63)
    (hs : h.spread < 2 ^ 63) :
    (toInt (usub i h.spread) < 0 ↔ i < h.spread) ∧
    upNeighbour h B i
      = (if i < h.spread then Except.ok B else index h.slice (i - h.spread)) ∧
    (∀ n, neighboursAt h B i = .ok n →
      n.getD 2 0 = (if i < h.spread then B else h.slice.getD (i - h.spread) 0) ∧
      (h.spread ≤ i → i - h.spread < h.slice.length)) := by
  have hm : maxInt = 2 ^ 63 - 1 := rfl
  have hu : uintRange = 2 ^ 64 := rfl
  have htest : toInt (usub i h.spread) < 0 ↔ i < h.spread :=
    toInt_usub_neg_iff (by omega) (by omega)
  have hup : upNeighbour h B i
      = (if i < h.spread then Except.ok B else index h.slice (i - h.spread)) := by
    unfold upNeighbour
    by_cases c : i < h.spread
    · rw [if_pos (htest.mpr c), if_pos c]
      rfl
    · rw [if_neg (fun hh => c (htest.mp hh)), if_neg c, usub_of_le (by omega) (by omega)]
  refine ⟨htest, hup, ?_⟩
  intro n hn
  obtain ⟨_, n0, n1, n2, n3, rfl, _, _, h2, _⟩ := neighboursAt_ok_inv h B i n hn
  rw [hup] at h2
  by_cases c : i < h.spread
  · rw [if_pos c] at h2
    cases h2
    refine ⟨?_, fun hle => absurd hle (by omega)⟩
    rw [if_pos c]
    rfl
  · rw [if_neg c] at h2
    refine ⟨?_, fun _ => index_ok_lt h2⟩
    rw [if_neg c, ← index_ok_getD h2]
    rfl

/-- C19 on the 4 by 3 grid (stride 3): at slice index 4 the test is false and the `up`
neighbour is the read of `slice[1]`; at slice index 2 the test is true. -/
theorem top_edge_test_iff_witness :
    upNeighbour (gridOf 4 3 [0, 11, 0, 0, 0, 0, 0, 0, 0, 0, 0, 0]) 9 4 = .ok 11 ∧
    (toInt (usub 2 3) < 0 ↔ 2 < 3) :=
  ⟨(top_edge_test_iff (gridOf 4 3 [0, 11, 0, 0, 0, 0, 0, 0, 0, 0, 0, 0]) 9 4
      (by decide) (by decide)).2.1,
   (top_edge_test_iff (gridOf 4 3 [0, 11, 0, 0, 0, 0, 0, 0, 0, 0, 0, 0]) 9 2
      (by decide) (by decide)).1⟩

/-- C14 fails when `width*height` wraps: `NewHeatmapBufferArray(6148914691236517206, 3)`
returns (the product is `2^64 + 2`, so the slices have length 2 and the stride is 3), and
`Apply` panics with an index out of range, reading `h.slice[2]` as right neighbour of
index 1. -/
theorem apply_panics_when_cell_count_wraps :
    6148914691236517206 * 3 = 2 ^ 64 + 2 ∧
    ∃ hba, NewHeatmapBufferArray 6148914691236517206 3 = .ok hba ∧
      hba.Heatmap.slice.length = 2 ∧ hba.Heatmap.spread = 3 ∧
      index hba.Heatmap.slice (uadd 1 1) = .error .indexOutOfRange ∧
      neighboursAt hba.Heatmap 0 1 = .error .indexOutOfRange ∧
      hba.Apply spreadAction 0 = .error .indexOutOfRange :=
  ⟨by decide, _, rfl, rfl, rfl, rfl, rfl, rfl⟩

/-- C14, amended: for every width and height (0 included) whose product does not wrap
(`W*H < 2^64`), on every buffer built by `NewHeatmapBufferArray(W, H)`, for every rule and
boundary, `Apply` returns without a panic; in each iteration `i` the stride is not zero,
each of the reads `h.slice[i-1]`, `h.slice[i+1]`, `h.slice[i-spread]`, `h.slice[i+spread]`
taken on its non-boundary branch and the read `h.slice[i]` use an index below `W*H`, and
the write `hba.b.slice[i]` uses an index below the length `W*H` of the scratch slice. -/
theorem apply_in_bounds (W H : Nat) (hba : HeatmapBufferArray) (a : Nat → List Nat → Nat)
    (B : Nat) (hb : hba.BuiltBy W H) (hno : W * H < uintRange) :
    (∃ r, hba.Apply a B = .ok r) ∧
    hba.h.slice.length = W * H ∧ hba.b.slice.length = W * H ∧
    ∀ i, i < hba.h.slice.length →
      hba.h.spread ≠ 0 ∧
      (i % hba.h.spread ≠ 0 → usub i 1 < W * H) ∧
      (i % hba.h.spread ≠ usub hba.h.spread 1 → uadd i 1 < W * H) ∧
      (¬ toInt (usub i hba.h.spread) < 0 → usub i hba.h.spread < W * H) ∧
      (¬ uadd i hba.h.spread ≥ hba.h.slice.length → uadd i hba.h.spread < W * H) ∧
      i < W * H ∧
      (∃ n v, neighboursAt hba.h B i = .ok n ∧ index hba.h.slice i = .ok v) := by
  obtain ⟨s1, _, l1, l2, hm, _, _⟩ := builtBy_facts hb hno
  refine ⟨⟨_, builtBy_apply_eq hb hno a B⟩, l1, l2, ?_⟩
  intro i hi
  have hn := neighboursAt_eq hba.h B i (by rw [s1, l1]; exact Dvd.intro_left W rfl)
    (by rw [l1]; exact hm) hi
  obtain ⟨hS, n0, n1, n2, n3, _, h0, h1, h2, h3⟩ := neighboursAt_ok_inv hba.h B i _ hn
  refine ⟨hS, ?_, ?_, ?_, ?_, by omega, ⟨_, _, hn, index_of_lt hi⟩⟩
  · intro c
    rw [if_neg c] at h0
    rw [← l1]
    exact index_ok_lt h0
  · intro c
    rw [if_neg c] at h1
    rw [← l1]
    exact index_ok_lt h1
  · intro c
    unfold upNeighbour at h2
    rw [if_neg c] at h2
    rw [← l1]
    exact index_ok_lt h2
  · intro c
    rw [if_neg c] at h3
    rw [← l1]
    exact index_ok_lt h3

/-- C14 amended, on the empty buffer of width 0 and height 5 and on the 3 by 1 buffer
`[0, 0, 7]`: `Apply` returns on both. -/
theorem apply_in_bounds_witness :
    (∃ r, (bufferOf 0 5 [] []).Apply spreadAction 255 = .ok r) ∧
    (∃ r, (bufferOf 3 1 [0, 0, 7] [0, 0, 0]).Apply spreadAction 0 = .ok r) :=
  ⟨(apply_in_bounds 0 5 (bufferOf 0 5 [] []) spreadAction 255
      (bufferOf_builtBy 0 5 _ _ (by decide) (by decide) (by decide) rfl rfl)
      (by decide)).1,
   (apply_in_bounds 3 1 (bufferOf 3 1 [0, 0, 7] [0, 0, 0]) spreadAction 0
      (bufferOf_builtBy 3 1 _ _ (by decide) (by decide) (by decide) rfl rfl)
      (by decide)).1⟩

/-! ## Square grids -/

theorem spreadScan_ne_zero (v : Nat) (hv : v ≠ 0) : ∀ n : List Nat, spreadScan v n ≠ 0 := by
  intro n
  induction n with
  | nil => exact hv
  | cons e rest ih =>
    unfold spreadScan
    by_cases c : e ≠ 0
    · rw [if_pos c]; exact c
    · rw [if_neg c]; exact ih

theorem cellValue_ok_inv (a : Nat → List Nat → Nat) (B : Nat) (h : HeatmapArray) (i x : Nat)
    (hc : cellValue a B h i = .ok x) :
    ∃ n v, neighboursAt h B i = .ok n ∧ index h.slice i = .ok v ∧ x = a v n := by
  unfold cellValue at hc
  cases hn : neighboursAt h B i with
  | error e => rw [hn] at hc; cases hc
  | ok n =>
    rw [hn] at hc
    dsimp only at hc
    cases hv : index h.slice i with
    | error e => rw [hv] at hc; cases hc
    | ok v =>
      rw [hv] at hc
      cases hc
      exact ⟨n, v, rfl, rfl, rfl⟩

/-- A read that yields the boundary 0 or a cell of an all-zero slice yields 0. -/
theorem read_zero {s : List Nat} (hs : ∀ j, s.getD j 0 = 0) {c : Prop} [Decidable c]
    {k v : Nat} (h : (if c then Except.ok 0 else index s k) = .ok v) : v = 0 := by
  by_cases hc : c
  · rw [if_pos hc] at h
    cases h
    rfl
  · rw [if_neg hc] at h
    rw [index_ok_getD h]
    exact hs k

/-- C18: on a buffer built by `NewHeatmapBufferArray`, for every boundary `B`, whenever
`Apply(spreadAction, B)` returns, every slice index whose current cell was nonzero before
the call holds a nonzero current cell after it; an all-zero current grid is left equal to
itself by `Apply(spreadAction, 0)`; and `Apply` does return when `W*H` does not wrap. -/
theorem ink_never_disappears (W H : Nat) (hba : HeatmapBufferArray) (B : Nat)
    (hb : hba.BuiltBy W H) :
    (∀ r, hba.Apply spreadAction B = .ok r →
      ∀ i, i < hba.Heatmap.slice.length → hba.Heatmap.slice.getD i 0 ≠ 0 →
        r.Heatmap.slice.getD i 0 ≠ 0) ∧
    (∀ r, hba.Apply spreadAction 0 = .ok r → (∀ i, hba.Heatmap.slice.getD i 0 = 0) →
      r.Heatmap = hba.Heatmap) ∧
    (W * H < uintRange → ∃ r, hba.Apply spreadAction B = .ok r) := by
  obtain ⟨g1, b1⟩ := (bufferBuiltBy_iff W H hba).mp hb
  obtain ⟨_, _, _, sh, zh, lh⟩ := (gridBuiltBy_iff W H hba.h).mp g1
  obtain ⟨_, _, _, sb, zb, lb⟩ := (gridBuiltBy_iff W H hba.b).mp b1
  have hcur : hba.Heatmap = hba.h := rfl
  rw [hcur]
  -- what every returning call stores at index `i`
  have key : ∀ B' r, hba.Apply spreadAction B' = .ok r →
      r.Heatmap.slice.length = hba.h.slice.length ∧
      r.Heatmap.spread = hba.h.spread ∧ r.Heatmap.size = hba.h.size ∧
      ∀ i, i < hba.h.slice.length → ∃ n, neighboursAt hba.h B' i = .ok n ∧
        r.Heatmap.slice[i]? = some (spreadAction (hba.h.slice.getD i 0) n) := by
    intro B' r hr
    unfold HeatmapBufferArray.Apply at hr
    cases hl : applyLoop spreadAction B' hba.h hba.h.slice.length 0 hba.b.slice with
    | error err => rw [hl] at hr; cases hr
    | ok bs =>
      rw [hl] at hr
      cases hr
      obtain ⟨hlen, hin, _⟩ := applyLoop_ok_inv spreadAction B' hba.h _ _ _ _ hl
      refine ⟨?_, ?_, ?_, ?_⟩
      · show bs.length = hba.h.slice.length
        rw [hlen, lb, lh]
      · show hba.b.spread = hba.h.spread
        rw [sb, sh]
      · show hba.b.size = hba.h.size
        rw [zb, zh]
      · intro i hi
        obtain ⟨x, hx, hget⟩ := hin i (by omega) (by simpa using hi)
        obtain ⟨n, v, hn, hv, rfl⟩ := cellValue_ok_inv _ _ _ _ _ hx
        refine ⟨n, hn, ?_⟩
        show bs[i]? = _
        rw [hget, index_ok_getD hv]
  refine ⟨?_, ?_, fun hno => ⟨_, builtBy_apply_eq hb hno spreadAction B⟩⟩
  · intro r hr i hi hne
    obtain ⟨_, _, _, hcell⟩ := key B r hr
    obtain ⟨n, _, hget⟩ := hcell i hi
    rw [List.getD_eq_getElem?_getD, hget]
    exact spreadScan_ne_zero _ hne n
  · intro r hr hzero
    obtain ⟨hlen, hsp, hsz, hcell⟩ := key 0 r hr
    have hslice : r.Heatmap.slice = hba.h.slice := by
      apply List.ext_getElem?
      intro i
      by_cases hi : i < hba.h.slice.length
      · obtain ⟨n, hn, hget⟩ := hcell i hi
        obtain ⟨_, n0, n1, n2, n3, rfl, h0, h1, h2, h3⟩ := neighboursAt_ok_inv _ _ _ _ hn
        have z0 : n0 = 0 := read_zero hzero h0
        have z1 : n1 = 0 := read_zero hzero h1
        have z2 : n2 = 0 := read_zero hzero h2
        have z3 : n3 = 0 := read_zero hzero h3
        subst z0 z1 z2 z3
        rw [hget, hzero i]
        have hold : hba.h.slice[i]? = some (hba.h.slice.getD i 0) := by
          rw [List.getElem?_eq_getElem hi, List.getD_eq_getElem _ 0 hi]
        rw [hold, hzero i]
        rfl
      · rw [List.getElem?_eq_none (by omega), List.getElem?_eq_none (by omega)]
    show r.h = hba.h
    have e1 : r.h = { slice := r.h.slice, spread := r.h.spread, size := r.h.size } := rfl
    have e2 : hba.h = { slice := hba.h.slice, spread := hba.h.spread, size := hba.h.size } :=
      rfl
    rw [e1, e2]
    have hslice' : r.h.slice = hba.h.slice := hslice
    have hsp' : r.h.spread = hba.h.spread := hsp
    have hsz' : r.h.size = hba.h.size := hsz
    rw [hslice', hsp', hsz']

/-- C18 on the 2 by 2 buffer with current cells `[0, 5, 0, 0]` and boundary 3: `Apply`
returns and cell 1 is still nonzero. -/
theorem ink_never_disappears_witness :
    ∃ r, (bufferOf 2 2 [0, 5, 0, 0] [0, 0, 0, 0]).Apply spreadAction 3 = .ok r ∧
      r.Heatmap.slice.getD 1 0 ≠ 0 :=
  match (ink_never_disappears 2 2 (bufferOf 2 2 [0, 5, 0, 0] [0, 0, 0, 0]) 3
      (bufferOf_builtBy 2 2 _ _ (by decide) (by decide) (by decide) rfl rfl)).2.2
      (by decide) with
  | ⟨r, hr⟩ =>
    ⟨r, hr, (ink_never_disappears 2 2 (bufferOf 2 2 [0, 5, 0, 0] [0, 0, 0, 0]) 3
      (bufferOf_builtBy 2 2 _ _ (by decide) (by decide) (by decide) rfl rfl)).1 r hr 1
      (by decide) (by decide)⟩

theorem getD_replicate_zero (n j : Nat) : (List.replicate n 0).getD j 0 = 0 := by
  rw [List.getD_eq_getElem?_getD, List.getElem?_replicate]
  split <;> rfl

/-- One sweep of the spread rule over an all-zero slice writes the boundary at the indices
that open or close a run of `spread` cells or lie in the first or the last run, and 0 at
the others. -/
theorem sweepValue_zeros (n spread B i : Nat) :
    sweepValue spreadAction (List.replicate n 0) spread B i
      = if i % spread = 0 ∨ i % spread = spread - 1 ∨ i < spread ∨ n ≤ i + spread
        then B else 0 := by
  unfold sweepValue linearNeighbours spreadAction
  simp only [getD_replicate_zero, List.length_replicate, spreadScan]
  split_ifs <;> first | rfl | omega

/-- What one `Apply(spreadAction, B)` leaves in a freshly built buffer whose cell count does
not wrap: the cell `At(x, y)` with linear index `i = x + y*H` inside the slice reads `B` when
`i` opens or closes a run of `H` cells or lies in the first or the last run, and 0
otherwise. -/
theorem fresh_apply_at (W H B : Nat) (hW : W < uintRange) (hH : H < uintRange)
    (hm : W * H ≤ maxInt) :
    ∃ hba r, NewHeatmapBufferArray W H = .ok hba ∧ hba.Apply spreadAction B = .ok r ∧
      ∀ x y, x + y * H < W * H →
        r.Heatmap.At x y = .ok
          (if (x + y * H) % H = 0 ∨ (x + y * H) % H = H - 1 ∨ x + y * H < H ∨
              W * H ≤ x + y * H + H
           then B else 0) := by
  have hm63 : maxInt = 2 ^ 63 - 1 := rfl
  have hu : uintRange = 2 ^ 64 := rfl
  have hno : W * H < uintRange := by omega
  have hmul : umul W H = W * H := umul_of_lt hno
  have hg : NewHeatmapArray W H = .ok (gridOf W H (List.replicate (umul W H) 0)) :=
    (NewHeatmapArray_eq_ok_iff W H _).mpr ⟨by rw [hmul]; exact hm, rfl⟩
  have hnew : NewHeatmapBufferArray W H
      = .ok (bufferOf W H (List.replicate (umul W H) 0) (List.replicate (umul W H) 0)) := by
    unfold NewHeatmapBufferArray
    rw [hg]
    rfl
  have hb : (bufferOf W H (List.replicate (umul W H) 0)
      (List.replicate (umul W H) 0)).BuiltBy W H :=
    bufferOf_builtBy W H _ _ hW hH (by rw [hmul]; exact hm)
      (List.length_replicate _ _) (List.length_replicate _ _)
  refine ⟨_, _, hnew, builtBy_apply_eq hb hno spreadAction B, ?_⟩
  intro x y hxy
  unfold HeatmapBufferArray.Heatmap HeatmapArray.At
  rw [offset_of_lt _ _ _ (by
    show x + y * H < uintRange
    omega)]
  show index (sweep spreadAction (List.replicate (umul W H) 0) H B) (x + y * H) = _
  rw [index_sweep _ _ _ _ _ (by rw [List.length_replicate, hmul]; exact hxy),
    sweepValue_zeros, hmul]

/-- C15, evaluated on the program's own run, the fresh 300 by 200 buffer with boundary 255:
after `Apply(spreadAction, 255)` the interior cell `(200, 1)` reads 255 and the edge cell
`(299, 1)` reads 0. -/
theorem apply_main_run_edges_wrong :
    ∃ hba r, NewHeatmapBufferArray 300 200 = .ok hba ∧
      hba.Apply spreadAction 255 = .ok r ∧
      onEdge 300 200 200 1 = false ∧ r.Heatmap.At 200 1 = .ok 255 ∧
      onEdge 300 200 299 1 = true ∧ r.Heatmap.At 299 1 = .ok 0 :=
  match fresh_apply_at 300 200 255 (by decide) (by decide) (by decide) with
  | ⟨hba, r, h1, h2, h3⟩ =>
    ⟨hba, r, h1, h2, rfl, (h3 200 1 (by decide)).trans rfl, rfl,
      (h3 299 1 (by decide)).trans rfl⟩

/-! ## Linear addressing -/

end Poster
